import Mathlib

/-! # Snout: runtime objects, hash keys, rendering and the output of the REPL

A shallow embedding of `src/object/object.go` and `src/repl/repl.go`.

* Go `string` is Lean `String`; `[]byte(s)` is the UTF-8 encoding of `s`.
* `int64` is `Int` restricted by `IsInt64`; `uint64` is `Nat` reduced modulo `2 ^ 64`.
* Go library functions the code calls (`strings.Join`, `fmt.Sprintf`, `hash/fnv`) are
  embedded from the Go standard library.
* Packages the two files import from this repository but that are not part of the
  sources at hand (`monkey/ast`, `monkey/lexer`, `monkey/parser`, `monkey/evaluator`,
  and the `Environment` of `monkey/object`) are taken as parameters (`Pkg`, `Deps`).
* The network is a parameter: `Deps.httpGet` gives what `http.Get` plus the JSON
  decoder produce for a URL.
* `range` over a Go map visits the entries in an order the runtime chooses afresh at
  every loop.  The choices are read from an explicit schedule (`Sched`).
-/

/-! ## Go standard library -/

namespace strings

/-- Go `strings.Join(elems, sep)`: nothing for no element, the element itself for one,
otherwise the first element followed by `sep` and the next element, repeatedly. -/
def Join : List String → String → String
  | [], _ => ""
  | [e], _ => e
  | e :: es, sep => es.foldl (fun b s => b ++ sep ++ s) e

end strings

namespace fmt

/-- The constant `ldigits` of Go's `fmt` package (`digits` inside `fmtInteger`). -/
def ldigits : String := "0123456789abcdefx"

/-- The base-10 loop of `fmtInteger`: `for u >= 10 { i--; next := u / 10;
buf[i] = byte('0' + u - next*10); u = next }`.  The buffer is written from its end, so
it is a list that grows at the front; the first argument is the number of free bytes
left in it. -/
def fmtInteger.loop : Nat → Nat → List Char → Nat × List Char
  | 0, u, buf => (u, buf)
  | free + 1, u, buf =>
    if 10 ≤ u then
      let next := u / 10
      fmtInteger.loop free next (Char.ofNat ((48 + u - next * 10) % 256) :: buf)
    else (u, buf)

/-- Go `fmtInteger(u, 10, true, 'd', ldigits)` with no flags, width or precision, as
reached from `fmt.Sprintf("%d", v)` for `v : int64`; `u` is `uint64(v)` and the
buffer `intbuf` has 68 bytes. -/
def fmtInteger (u : Nat) : String :=
  let negative := decide (2 ^ 63 ≤ u)
  let u := if negative then (2 ^ 64 - u) % 2 ^ 64 else u
  let (u, buf) := fmtInteger.loop 67 u []
  let buf := ldigits.data.getD u '?' :: buf
  String.mk (if negative then '-' :: buf else buf)

/-- Go `fmt.Sprintf("%d", v)` for an `int64` argument. -/
def Sprintf_d (v : Int) : String := fmtInteger (v % 2 ^ 64).toNat

/-- Go `fmt.Sprintf("%s: %s", a, b)`. -/
def Sprintf_s_colon_s (a b : String) : String := a ++ ": " ++ b

/-- Go `fmt.Sprintf("https://lingva.ml/api/v1/en/fr/%s", s)`. -/
def Sprintf_url (s : String) : String := "https://lingva.ml/api/v1/en/fr/" ++ s

end fmt

namespace fnv

/-- Constant `offset64` of Go's `hash/fnv`. -/
def offset64 : Nat := 14695981039346656037

/-- Constant `prime64` of Go's `hash/fnv`. -/
def prime64 : Nat := 1099511628211

/-- Go `fnv.New64a()`: the state of the hash is one `uint64`. -/
def New64a : Nat := offset64

/-- Go `(*sum64a).Write`: `for _, c := range data { hash ^= sum64a(c); hash *= prime64 }`. -/
def Write (s : Nat) (data : List UInt8) : Nat :=
  data.foldl (fun hash c => ((hash ^^^ c.toNat) * prime64) % 2 ^ 64) s

/-- Go `(*sum64a).Sum64`. -/
def Sum64 (s : Nat) : Nat := s

end fnv

/-- Go `[]byte(s)`: the UTF-8 bytes of the string. -/
def goBytes (s : String) : List UInt8 := s.data.flatMap String.utf8EncodeChar

/-- The values an `int64` can hold. -/
def IsInt64 (v : Int) : Prop := -(2 : Int) ^ 63 ≤ v ∧ v < (2 : Int) ^ 63

instance (v : Int) : Decidable (IsInt64 v) := by unfold IsInt64; infer_instance

/-! ## Package `object` -/

namespace object

/-- Types that `object.go` and `repl.go` use from packages whose source is not at hand.
`BuiltinFunction` is `func(args ...Object) Object`; no code here calls it, and it is
kept abstract. -/
structure Pkg where
  /-- Go `ast.Identifier`. -/
  Identifier : Type
  /-- Go `ast.BlockStatement`. -/
  BlockStatement : Type
  /-- Go `ast.Program`. -/
  Program : Type
  /-- Go `object.Environment`. -/
  Environment : Type
  /-- Go `object.BuiltinFunction`. -/
  BuiltinFunction : Type

abbrev ObjectType := String

def INTEGER_OBJ : ObjectType := "INTEGER"
def BOOLEAN_OBJ : ObjectType := "BOOLEAN"
def NULL_OBJ : ObjectType := "NULL"
def RETURN_VALUE_OBJ : ObjectType := "RETURN_VALUE"
def ERROR_OBJ : ObjectType := "ERROR"
def FUNCTION_OBJ : ObjectType := "FUNCTION"
def STRING_OBJ : ObjectType := "STRING"
def BUILTIN_OBJ : ObjectType := "BUILTIN"
def ARRAY_OBJ : ObjectType := "ARRAY"
def HASH_OBJ : ObjectType := "HASH"

/-- Go `type HashKey struct { Type ObjectType; Value uint64 }`. -/
structure HashKey where
  Type_ : ObjectType
  Value : Nat
deriving DecidableEq, Repr

mutual
/-- The runtime values: the ten types of `object.go` that implement `Object`.
`Hash.Pairs` is a Go map; it is held as the list of its entries, whose order carries no
meaning (see `rangeMap`). -/
inductive Object (P : Pkg) where
  | Integer (Value : Int)
  | Boolean (Value : Bool)
  | Null
  | ReturnValue (Value : Object P)
  | Error (Message : String)
  | String (Value : String)
  | Array (Elements : List (Object P))
  | Function (Parameters : List P.Identifier) (Body : P.BlockStatement) (Env : P.Environment)
  | Builtin (Fn : P.BuiltinFunction)
  | Hash (Pairs : List (HashKey × HashPair P))
/-- Go `type HashPair struct { Key Object; Value Object }`. -/
inductive HashPair (P : Pkg) where
  | mk (Key : Object P) (Value : Object P)
end

/-- Go `Type()` of each variant. -/
def Object.Type_ {P : Pkg} : Object P → ObjectType
  | .Integer _ => INTEGER_OBJ
  | .Boolean _ => BOOLEAN_OBJ
  | .Null => NULL_OBJ
  | .ReturnValue _ => RETURN_VALUE_OBJ
  | .Error _ => ERROR_OBJ
  | .String _ => STRING_OBJ
  | .Array _ => ARRAY_OBJ
  | .Function _ _ _ => FUNCTION_OBJ
  | .Builtin _ => BUILTIN_OBJ
  | .Hash _ => HASH_OBJ

/-- Go interface `Hashable`: the method `HashKey()` exists on `*Boolean`, `*Integer` and
`*String` only.  `none` stands for "the type has no such method". -/
def Hashable.HashKey {P : Pkg} : Object P → Option HashKey
  | .Boolean b => some { Type_ := BOOLEAN_OBJ, Value := if b then 1 else 0 }
  | .Integer i => some { Type_ := INTEGER_OBJ, Value := (i % 2 ^ 64).toNat }
  | .String s =>
    let h := fnv.New64a
    let h := fnv.Write h (goBytes s)
    some { Type_ := STRING_OBJ, Value := fnv.Sum64 h }
  | _ => none

/-- Go `var manualDict = map[string]string{...}`; the keys of the literal are distinct. -/
def manualDict : List (String × String) :=
  [ ("hi", "bonjour"),
    ("dog", "chien"),
    ("goodbye", "au revoir"),
    ("true", "vrai"),
    ("false", "faux"),
    ("null", "nul"),
    ("function", "fonction"),
    ("return", "retour"),
    ("error", "erreur"),
    ("builtin", "fonction intégrée"),
    ("array", "tableau"),
    ("hash", "table de hachage"),
    ("integer", "entier"),
    ("boolean", "booléen"),
    ("string", "chaîne"),
    ("nil", "nul"),
    ("and", "et"),
    ("or", "ou"),
    ("not", "pas"),
    ("if", "si"),
    ("else", "sinon"),
    ("for", "pour"),
    ("let", "laisser"),
    ("in", "dans"),
    ("of", "de"),
    ("to", "à"),
    ("with", "avec"),
    ("func", "fonction"),
    ("undefined", "indéfini") ]

/-- What the request of `TranslateToFrench` comes back with. -/
inductive LookupOutcome where
  /-- `http.Get` returned a non-nil error (its text). -/
  | getError (err : String)
  /-- the JSON decoder returned an error (its text); `body` is what `ReadAll` then reads. -/
  | decodeError (err : String) (body : String)
  /-- the body decoded; `translation` is `res.Translation`. -/
  | decoded (translation : String)

/-- Go `fr, ok := manualDict[s]; if ok { return fr }; return s`. -/
def manualDictOr (s : String) : String :=
  match manualDict.lookup s with
  | some fr => fr
  | none => s

/-- Go `TranslateToFrench`.  `EqualFold` is `strings.EqualFold`, `httpGet` the lookup
service.  The result is the returned string together with the lines the function prints
on the standard output of the process. -/
def TranslateToFrench (EqualFold : String → String → Bool) (httpGet : String → LookupOutcome)
    (s : String) : String × List String :=
  let url := fmt.Sprintf_url s
  match httpGet url with
  | .getError err => (manualDictOr s, ["API error: " ++ err ++ "\n"])
  | .decodeError err body =>
    (manualDictOr s, ["Decode error: " ++ err ++ "\n", "API response body: " ++ body ++ "\n"])
  | .decoded translation =>
    if translation == "" || EqualFold translation s then (manualDictOr s, [])
    else (translation, [])

/-- Functions that `object.go` and `repl.go` call but that live outside the two files:
the `String()` methods of the syntax tree, `strings.EqualFold`, the lookup service, and
the lexer, parser and evaluator. -/
structure Deps (P : Pkg) where
  /-- Go `(*ast.Identifier).String`. -/
  identString : P.Identifier → String
  /-- Go `(*ast.BlockStatement).String`. -/
  blockString : P.BlockStatement → String
  /-- Go `strings.EqualFold`. -/
  EqualFold : String → String → Bool
  /-- the lookup service: what the request for a URL comes back with. -/
  httpGet : String → LookupOutcome
  /-- Go `object.NewEnvironment()`. -/
  NewEnvironment : P.Environment
  /-- Go `lexer.New`, `parser.New`, `ParseProgram` and `Errors` on one line of input. -/
  parse : String → P.Program × List String
  /-- Go `evaluator.Eval(program, env)`: the result (`none` for nil) and the environment
  as the call leaves it. -/
  Eval : P.Program → P.Environment → Option (Object P) × P.Environment

/-- The orders in which the runtime will walk the maps it ranges over: one number per
`range` loop, consumed in execution order (0 once the list is used up). -/
abbrev Sched := List Nat

/-- A computation that returns a string and consumes part of the schedule. -/
abbrev Render := Sched → String × Sched

/-- The order number `seed` selects among the entries `l`: the orders of a list with
`n` entries are numbered in mixed radix, the last digit placing the first entry. -/
def pickOrder {α : Type} : Nat → List α → List α
  | _, [] => []
  | seed, a :: rest =>
    (pickOrder (seed / (rest.length + 1)) rest).insertIdx (seed % (rest.length + 1)) a

/-- Go `for _, x := range m` over a map `m`: the entries in the order the runtime picks
for this loop. -/
def rangeMap {α : Type} (entries : List α) (σ : Sched) : List α × Sched :=
  (pickOrder (σ.headD 0) entries, σ.tail)

/-- Runs the computations in list order and collects the strings
(`for ... { out = append(out, x.Inspect()) }`). -/
def runAll : List Render → Sched → List String × Sched
  | [], σ => ([], σ)
  | r :: rs, σ =>
    let (s, σ) := r σ
    let (ss, σ) := runAll rs σ
    (s :: ss, σ)

mutual
/-- Go `Inspect()` of each variant.  The strings the localization hook prints on the
standard output are not part of the returned text. -/
def Object.Inspect {P : Pkg} (X : Deps P) : Object P → Render
  | .Integer v => fun σ => (fmt.Sprintf_d v, σ)
  | .Boolean b => fun σ => (if b then "vrai" else "faux", σ)
  | .Null => fun σ => ("nul", σ)
  | .ReturnValue v => Object.Inspect X v
  | .Error m => fun σ => ("ERREUR : " ++ m, σ)
  | .String s => fun σ => ((TranslateToFrench X.EqualFold X.httpGet s).1, σ)
  | .Array es => fun σ =>
    let (elements, σ) := runAll (Array.Inspect.elements X es) σ
    ("[" ++ strings.Join elements ", " ++ "]", σ)
  | .Function ps body _ => fun σ =>
    let params := ps.map X.identString
    ("fonction" ++ "(" ++ strings.Join params ", " ++ ") \x7b\n" ++ X.blockString body ++ "\n\x7d", σ)
  | .Builtin _ => fun σ => ("builtin function", σ)
  | .Hash ps => fun σ =>
    let (visit, σ) := rangeMap (Hash.Inspect.pairs X ps) σ
    let (pairs, σ) := runAll visit σ
    ("\x7b" ++ strings.Join pairs ", " ++ "\x7d", σ)
/-- The calls `e.Inspect()` for the elements of an Array, in element order. -/
def Array.Inspect.elements {P : Pkg} (X : Deps P) : List (Object P) → List Render
  | [] => []
  | e :: es => Object.Inspect X e :: Array.Inspect.elements X es
/-- The loop body of `Hash.Inspect` for each entry of the map. -/
def Hash.Inspect.pairs {P : Pkg} (X : Deps P) : List (HashKey × HashPair P) → List Render
  | [] => []
  | kp :: ps => Hash.Inspect.pair X kp.2 :: Hash.Inspect.pairs X ps
/-- Go `fmt.Sprintf("%s: %s", pair.Key.Inspect(), pair.Value.Inspect())`. -/
def Hash.Inspect.pair {P : Pkg} (X : Deps P) : HashPair P → Render
  | .mk k v => fun σ =>
    let (a, σ) := Object.Inspect X k σ
    let (b, σ) := Object.Inspect X v σ
    (fmt.Sprintf_s_colon_s a b, σ)
end

end object

/-! ## Package `repl` -/

namespace repl

open object

def PROMPT : String := ">> "

def DOG_FACE : String :=
  "\n  / \\\\__\n (    @\\\\___\n /         O\n/   (_____/\n/_____/ U\n"

/-- An `io.Writer`: the strings written to it so far, oldest first. -/
abbrev Writer := List String

/-- Go `io.WriteString(out, s)` (and `fmt.Fprint(out, s)` for a string). -/
def WriteString (out : Writer) (s : String) : Writer := out ++ [s]

/-- The text a writer has received. -/
def Writer.text (out : Writer) : String := String.join out

/-- Go `printParserErrors`. -/
def printParserErrors (out : Writer) (errors : List String) : Writer :=
  let out := WriteString out DOG_FACE
  let out := WriteString out "Oups ! Nous avons rencontré un problème avec Snout !\n"
  let out := WriteString out "Erreurs d'analyse :\n"
  errors.foldl (fun out msg => WriteString out ("\t" ++ msg ++ "\n")) out

/-- What the loop of `Start` holds between two iterations. -/
structure State (P : Pkg) where
  env : P.Environment
  σ : Sched
  out : Writer

/-- One iteration of the loop of `Start` in which `scanner.Scan()` succeeds and
`scanner.Text()` is `line`. -/
def Start.iteration {P : Pkg} (X : Deps P) (line : String) (st : State P) : State P :=
  let out := WriteString st.out PROMPT
  let (program, errors) := X.parse line
  if errors.length != 0 then
    { st with out := printParserErrors out errors }
  else
    let (evaluated, env) := X.Eval program st.env
    match evaluated with
    | none => { env := env, σ := st.σ, out := out }
    | some v =>
      let out := match v with
        | .Error _ => WriteString out DOG_FACE
        | _ => out
      let (text, σ) := v.Inspect X st.σ
      let out := WriteString out text
      let out := WriteString out "\n"
      { env := env, σ := σ, out := out }

/-- The loop of `Start` over the lines the scanner yields; when the scanner has no more
line the prompt has been written and the function returns. -/
def Start.loop {P : Pkg} (X : Deps P) : List String → State P → State P
  | [], st => { st with out := WriteString st.out PROMPT }
  | line :: rest, st => Start.loop X rest (Start.iteration X line st)

/-- Go `Start(in, out)`: `lines` is what the scanner reads from `in`, `σ` the schedule
of map orders; the result is what `out` has received. -/
def Start {P : Pkg} (X : Deps P) (lines : List String) (out : Writer) (σ : Sched) : Writer :=
  (Start.loop X lines { env := X.NewEnvironment, σ := σ, out := out }).out

end repl

/-! ## Definitions used to state the properties -/

namespace object

/-- Field `Key` of a `HashPair`. -/
def HashPair.Key {P : Pkg} : HashPair P → Object P
  | .mk k _ => k

/-- Field `Value` of a `HashPair`. -/
def HashPair.Value {P : Pkg} : HashPair P → Object P
  | .mk _ v => v

mutual
/-- No Hash inside the value, at any depth, holds two or more pairs. -/
def Object.smallHashes {P : Pkg} : Object P → Bool
  | .ReturnValue v => Object.smallHashes v
  | .Array es => smallHashes.elements es
  | .Hash ps => decide (ps.length ≤ 1) && smallHashes.pairs ps
  | _ => true
/-- `Object.smallHashes` for every element of an Array. -/
def smallHashes.elements {P : Pkg} : List (Object P) → Bool
  | [] => true
  | e :: es => Object.smallHashes e && smallHashes.elements es
/-- `Object.smallHashes` for every key and value of the entries of a Hash. -/
def smallHashes.pairs {P : Pkg} : List (HashKey × HashPair P) → Bool
  | [] => true
  | kp :: ps => smallHashes.pair kp.2 && smallHashes.pairs ps
/-- `Object.smallHashes` for the key and the value of a pair. -/
def smallHashes.pair {P : Pkg} : HashPair P → Bool
  | .mk k v => Object.smallHashes k && Object.smallHashes v
end

/-- An instance of `Pkg` for concrete examples: identifiers are their names, the other
types carry no data. -/
@[reducible] def Pkg.example : Pkg :=
  { Identifier := String, BlockStatement := Unit, Program := Unit, Environment := Unit,
    BuiltinFunction := Unit }

/-- An instance of `Deps` for concrete examples: the lookup service is unreachable, the
parser reports two errors for a line that starts with `!` and none otherwise, and the
evaluator returns the Integer 7. -/
def Deps.example : Deps Pkg.example :=
  { identString := fun i => i,
    blockString := fun _ => "",
    EqualFold := fun a b => a.data.map Char.toLower == b.data.map Char.toLower,
    httpGet := fun _ => .getError "unreachable",
    NewEnvironment := (),
    parse := fun line =>
      match line.data with
      | '!' :: cs => ((), ["unexpected " ++ String.mk cs, "no rule for !"])
      | _ => ((), []),
    Eval := fun _ env => (some (.Integer 7), env) }

/-- The Hash with the two entries `1: 2` and `3: 4`. -/
def Object.twoPairs : Object Pkg.example :=
  .Hash [ ({ Type_ := INTEGER_OBJ, Value := 1 }, .mk (.Integer 1) (.Integer 2)),
          ({ Type_ := INTEGER_OBJ, Value := 3 }, .mk (.Integer 3) (.Integer 4)) ]

end object

namespace spec

/-- The 64-bit FNV-1a hash in the words of the specification: from the state `h`, for
each byte `b` in order, `h := ((h xor b) * 1099511628211) mod 2^64`. -/
def fnv1a64 : Nat → List UInt8 → Nat
  | h, [] => h
  | h, b :: bs => fnv1a64 (((h ^^^ b.toNat) * 1099511628211) % 2 ^ 64) bs

/-- The decimal digits of a natural number, most significant first, `0` for zero. -/
def decimalDigits (n : Nat) : List Char :=
  if n = 0 then ['0'] else (Nat.digits 10 n).reverse.map Nat.digitChar

/-- The decimal rendering of an integer: a minus sign when negative, then the digits of
the absolute value. -/
def decimal (v : Int) : String :=
  String.mk ((if v < 0 then ['-'] else []) ++ decimalDigits v.natAbs)

/-- The result `r` is `manualDict[s]` when `s` is a key of `manualDict`, and `s` itself
otherwise. -/
def IsFallback (s r : String) : Prop :=
  (∃ fr, (s, fr) ∈ object.manualDict ∧ r = fr) ∨ ((∀ fr, (s, fr) ∉ object.manualDict) ∧ r = s)

end spec

/-! ## Lemmas on the library functions -/

open object

theorem strings.Join_eq_intercalate (l : List String) (sep : String) :
    strings.Join l sep = sep.intercalate l := by
  have go : ∀ (es : List String) (e : String),
      es.foldl (fun b s => b ++ sep ++ s) e = String.intercalate.go e sep es := by
    intro es
    induction es with
    | nil => intro e; rfl
    | cons a as ih => intro e; simp only [List.foldl_cons, String.intercalate.go, ih]
  match l with
  | [] => rfl
  | [e] => rfl
  | e :: a :: as => simp only [strings.Join, String.intercalate, go]

theorem fnv.Write_eq_spec (bs : List UInt8) (h : Nat) : fnv.Write h bs = spec.fnv1a64 h bs := by
  induction bs generalizing h with
  | nil => rfl
  | cons b bs ih =>
    simp only [fnv.Write, List.foldl_cons, spec.fnv1a64, fnv.prime64] at ih ⊢
    exact ih _

theorem fmt.digit_lt_ten (u : Nat) (h : u < 10) :
    fmt.ldigits.data.getD u '?' = Nat.digitChar u ∧ spec.decimalDigits u = [Nat.digitChar u] := by
  interval_cases u <;> simp [fmt.ldigits, spec.decimalDigits] <;> decide

theorem fmt.loop_spec (free : Nat) : ∀ (u : Nat) (buf : List Char), u < 10 ^ (free + 1) →
    fmt.ldigits.data.getD (fmt.fmtInteger.loop free u buf).1 '?' :: (fmt.fmtInteger.loop free u buf).2
      = spec.decimalDigits u ++ buf := by
  induction free with
  | zero =>
    intro u buf h
    simp only [fmt.fmtInteger.loop]
    obtain ⟨h1, h2⟩ := fmt.digit_lt_ten u (by simpa using h)
    rw [h1, h2]; rfl
  | succ n ih =>
    intro u buf h
    rw [fmt.fmtInteger.loop]
    by_cases hu : 10 ≤ u
    · simp only [hu, if_true]
      rw [ih (u / 10) _ (by rw [Nat.div_lt_iff_lt_mul (by norm_num)]; rw [pow_succ] at h; exact h)]
      have hpos : 0 < u := by omega
      have hdiv : u / 10 ≠ 0 := by omega
      have hne : u ≠ 0 := by omega
      have hc : Char.ofNat ((48 + u - u / 10 * 10) % 256) = Nat.digitChar (u % 10) := by
        have : (48 + u - u / 10 * 10) % 256 = 48 + u % 10 := by omega
        rw [this]
        have h10 : u % 10 < 10 := Nat.mod_lt _ (by norm_num)
        generalize u % 10 = d at h10
        interval_cases d <;> decide
      simp only [spec.decimalDigits, hdiv, hne, if_false, hc]
      rw [Nat.digits_def' (by norm_num) hpos]
      simp
    · simp only [hu, if_false]
      obtain ⟨h1, h2⟩ := fmt.digit_lt_ten u (by omega)
      rw [h1, h2]; rfl

theorem fmt.Sprintf_d_eq_decimal (v : Int) (hv : IsInt64 v) : fmt.Sprintf_d v = spec.decimal v := by
  obtain ⟨h1, h2⟩ := hv
  have hbound : (2:Nat) ^ 64 < 10 ^ (67 + 1) := by norm_num
  have key := fmt.loop_spec 67 v.natAbs [] (by omega)
  rw [List.append_nil] at key
  unfold fmt.Sprintf_d fmt.fmtInteger spec.decimal
  by_cases hneg : v < 0
  · have hn : (2:Nat) ^ 63 ≤ (v % 2 ^ 64).toNat := by omega
    have hu2 : (2 ^ 64 - (v % 2 ^ 64).toNat) % 2 ^ 64 = v.natAbs := by omega
    simp only [hn, decide_True, if_true, hu2, hneg, ← key, List.singleton_append]
  · have hu : (v % 2 ^ 64).toNat = v.natAbs := by omega
    have hn : ¬ (2:Nat) ^ 63 ≤ v.natAbs := by omega
    simp only [hu, hn, decide_False, if_false, hneg, ← key, List.nil_append, Bool.false_eq_true]

theorem List.lookup_mem_or_absent (s : String) (l : List (String × String)) :
    match l.lookup s with
    | some fr => (s, fr) ∈ l
    | none => ∀ fr, (s, fr) ∉ l := by
  induction l with
  | nil => simp [List.lookup]
  | cons p l ih =>
    obtain ⟨k, w⟩ := p
    by_cases hk : s = k
    · subst hk
      simp [List.lookup]
    · have hb : (s == k) = false := by simpa using hk
      rw [List.lookup, hb]
      cases hl : l.lookup s with
      | some fr =>
        rw [hl] at ih
        simpa using Or.inr ih
      | none =>
        rw [hl] at ih
        intro fr hmem
        rcases List.mem_cons.1 hmem with h | h
        · exact hk (by injection h)
        · exact ih fr h

theorem object.manualDictOr_isFallback (s : String) : spec.IsFallback s (manualDictOr s) := by
  have h := List.lookup_mem_or_absent s manualDict
  unfold manualDictOr spec.IsFallback
  cases hl : manualDict.lookup s with
  | some fr => rw [hl] at h; exact Or.inl ⟨fr, h, rfl⟩
  | none => rw [hl] at h; exact Or.inr ⟨h, rfl⟩

/-! ## Hash keys -/

/-- C1: two hashable objects with equal hash keys are of the same variant; two Integers
holding `int64` values, and two Booleans, have equal hash keys exactly when their values
are equal; Integer 1 and Boolean true have different hash keys. -/
theorem hashKey_separates_variants_and_values {P : Pkg} :
    (∀ x y : Object P, (Hashable.HashKey x).isSome → Hashable.HashKey x = Hashable.HashKey y →
      (∃ a b, x = .Integer a ∧ y = .Integer b) ∨ (∃ a b, x = .Boolean a ∧ y = .Boolean b) ∨
      (∃ a b, x = .String a ∧ y = .String b)) ∧
    (∀ a b : Int, IsInt64 a → IsInt64 b →
      (Hashable.HashKey (.Integer a : Object P) = Hashable.HashKey (.Integer b : Object P)
        ↔ a = b)) ∧
    (∀ a b : Bool,
      (Hashable.HashKey (.Boolean a : Object P) = Hashable.HashKey (.Boolean b : Object P)
        ↔ a = b)) ∧
    Hashable.HashKey (.Integer 1 : Object P) ≠ Hashable.HashKey (.Boolean true : Object P) := by
  have hIB : INTEGER_OBJ ≠ BOOLEAN_OBJ := by decide
  have hIS : INTEGER_OBJ ≠ STRING_OBJ := by decide
  have hBS : BOOLEAN_OBJ ≠ STRING_OBJ := by decide
  refine ⟨?_, ?_, ?_, ?_⟩
  · intro x y hx hxy
    cases x <;> cases y <;>
      simp [Hashable.HashKey, hIB, hIS, hBS, hIB.symm, hIS.symm, hBS.symm] at hx hxy ⊢
  · intro a b ha hb
    obtain ⟨ha1, ha2⟩ := ha
    obtain ⟨hb1, hb2⟩ := hb
    constructor
    · intro h
      simp only [Hashable.HashKey, Option.some.injEq, HashKey.mk.injEq, true_and] at h
      omega
    · intro h; rw [h]
  · intro a b
    cases a <;> cases b <;> simp [Hashable.HashKey]
  · simp [Hashable.HashKey, hIB]

/-- The Integers -3 and 5 hold `int64` values and their hash keys differ. -/
theorem hashKey_separates_variants_and_values_witness :
    IsInt64 (-3) ∧ IsInt64 5 ∧
    (Hashable.HashKey (.Integer (-3) : Object Pkg.example)
        = Hashable.HashKey (.Integer 5 : Object Pkg.example) ↔ (-3 : Int) = 5) :=
  ⟨by decide, by decide,
    (hashKey_separates_variants_and_values (P := Pkg.example)).2.1 (-3) 5 (by decide) (by decide)⟩

/-- C2: `HashKey` is defined for every Integer, Boolean and String, and for no Null,
Array, Hash, Function, Builtin, ReturnValue or Error; so an object has a hash key exactly
when its variant is one of the first three. -/
theorem hashKey_defined_exactly_for_scalars {P : Pkg} :
    (∀ i, (Hashable.HashKey (.Integer i : Object P)).isSome) ∧
    (∀ b, (Hashable.HashKey (.Boolean b : Object P)).isSome) ∧
    (∀ s, (Hashable.HashKey (.String s : Object P)).isSome) ∧
    Hashable.HashKey (.Null : Object P) = none ∧
    (∀ es, Hashable.HashKey (.Array es : Object P) = none) ∧
    (∀ ps, Hashable.HashKey (.Hash ps : Object P) = none) ∧
    (∀ ps body env, Hashable.HashKey (.Function ps body env : Object P) = none) ∧
    (∀ fn, Hashable.HashKey (.Builtin fn : Object P) = none) ∧
    (∀ v, Hashable.HashKey (.ReturnValue v : Object P) = none) ∧
    (∀ m, Hashable.HashKey (.Error m : Object P) = none) ∧
    (∀ v : Object P, (Hashable.HashKey v).isSome ↔
      (v.Type_ = INTEGER_OBJ ∨ v.Type_ = BOOLEAN_OBJ ∨ v.Type_ = STRING_OBJ)) := by
  refine ⟨fun _ => rfl, fun _ => rfl, fun _ => rfl, rfl, fun _ => rfl, fun _ => rfl,
    fun _ _ _ => rfl, fun _ => rfl, fun _ => rfl, fun _ => rfl, ?_⟩
  intro v
  cases v <;> simp [Hashable.HashKey, Object.Type_] <;> decide

/-- C3: the hash key of a String has tag STRING and, as scalar, the 64-bit FNV-1a hash of
the bytes of its value, started from 14695981039346656037; so equal strings have equal
hash keys, the scalar of the empty string is 14695981039346656037, and the scalar of the
string `a` is the published FNV-1a value af63dc4c8601ec8c. -/
theorem string_hashKey_is_fnv1a {P : Pkg} :
    (∀ s : String, Hashable.HashKey (.String s : Object P)
      = some { Type_ := "STRING", Value := spec.fnv1a64 14695981039346656037 (goBytes s) }) ∧
    (∀ s t : String, s = t →
      Hashable.HashKey (.String s : Object P) = Hashable.HashKey (.String t : Object P)) ∧
    Hashable.HashKey (.String "" : Object P)
      = some { Type_ := "STRING", Value := 14695981039346656037 } ∧
    Hashable.HashKey (.String "a" : Object P)
      = some { Type_ := "STRING", Value := 0xaf63dc4c8601ec8c } := by
  refine ⟨?_, ?_, rfl, rfl⟩
  · intro s
    simp only [Hashable.HashKey, fnv.Sum64, fnv.New64a, fnv.Write_eq_spec]
    rfl
  · intro s t h
    rw [h]

/-- Two Strings with the value `dog` have the same hash key. -/
theorem string_hashKey_is_fnv1a_witness :
    Hashable.HashKey (.String "dog" : Object Pkg.example)
      = Hashable.HashKey (.String "dog" : Object Pkg.example) :=
  (string_hashKey_is_fnv1a (P := Pkg.example)).2.1 "dog" "dog" rfl

/-! ## The localization hook -/

/-- C4: when the request fails, the response does not decode, or the decoded translation
is empty or equal to the text ignoring case, `TranslateToFrench` returns the entry of
`manualDict` for the text if it has one and the text itself otherwise; in every other
case it returns the decoded translation.  The function is total: it returns a string on
every outcome. -/
theorem translateToFrench_falls_back (EqualFold : String → String → Bool)
    (httpGet : String → LookupOutcome) (s : String) :
    ((∃ err, httpGet (fmt.Sprintf_url s) = .getError err) →
      spec.IsFallback s (TranslateToFrench EqualFold httpGet s).1) ∧
    ((∃ err body, httpGet (fmt.Sprintf_url s) = .decodeError err body) →
      spec.IsFallback s (TranslateToFrench EqualFold httpGet s).1) ∧
    (∀ t, httpGet (fmt.Sprintf_url s) = .decoded t → (t = "" ∨ EqualFold t s = true) →
      spec.IsFallback s (TranslateToFrench EqualFold httpGet s).1) ∧
    (∀ t, httpGet (fmt.Sprintf_url s) = .decoded t → t ≠ "" → EqualFold t s = false →
      (TranslateToFrench EqualFold httpGet s).1 = t) := by
  refine ⟨?_, ?_, ?_, ?_⟩
  · rintro ⟨err, h⟩
    simp only [TranslateToFrench, h]
    exact manualDictOr_isFallback s
  · rintro ⟨err, body, h⟩
    simp only [TranslateToFrench, h]
    exact manualDictOr_isFallback s
  · intro t h ht
    have hc : (t == "" || EqualFold t s) = true := by
      rcases ht with ht | ht
      · simp [ht]
      · simp [ht]
    simp only [TranslateToFrench, h, hc, if_true]
    exact manualDictOr_isFallback s
  · intro t h hne hf
    have hc : (t == "" || EqualFold t s) = false := by simp [hne, hf]
    simp [TranslateToFrench, h, hc]

/-- With the service unreachable `dog` falls back to `chien`; a decoded `Salut` for
`hello` is returned as it is. -/
theorem translateToFrench_falls_back_witness :
    spec.IsFallback "dog" (TranslateToFrench Deps.example.EqualFold Deps.example.httpGet "dog").1 ∧
    (TranslateToFrench Deps.example.EqualFold Deps.example.httpGet "dog").1 = "chien" ∧
    (TranslateToFrench Deps.example.EqualFold (fun _ => .decoded "Salut") "hello").1 = "Salut" :=
  ⟨(translateToFrench_falls_back Deps.example.EqualFold Deps.example.httpGet "dog").1
      ⟨"unreachable", rfl⟩,
    by decide,
    (translateToFrench_falls_back Deps.example.EqualFold (fun _ => .decoded "Salut") "hello").2.2.2
      "Salut" rfl (by decide) (by decide)⟩

/-! ## Rendering -/

theorem object.pickOrder_perm {α : Type} (l : List α) : ∀ seed, (pickOrder seed l).Perm l := by
  induction l with
  | nil => intro seed; exact List.Perm.refl _
  | cons a rest ih =>
    intro seed
    have hlen : seed % (rest.length + 1) ≤ (pickOrder (seed / (rest.length + 1)) rest).length := by
      rw [(ih _).length_eq]
      exact Nat.le_of_lt_succ (Nat.mod_lt _ (Nat.succ_pos _))
    exact (List.perm_insertIdx a _ hlen).trans ((ih _).cons a)

theorem List.map_insertIdx_of_fun {α β : Type} (f : α → β) (a : α) :
    ∀ (n : Nat) (l : List α), (l.insertIdx n a).map f = (l.map f).insertIdx n (f a)
  | 0, l => by simp [List.insertIdx]
  | n + 1, [] => by simp [List.insertIdx]
  | n + 1, b :: l => by
    simp only [List.insertIdx_succ_cons, List.map_cons, List.map_insertIdx_of_fun f a n l]

theorem object.pickOrder_map {α β : Type} (f : α → β) (l : List α) :
    ∀ seed, pickOrder seed (l.map f) = (pickOrder seed l).map f := by
  induction l with
  | nil => intro seed; rfl
  | cons a rest ih =>
    intro seed
    simp only [List.map_cons, pickOrder, List.length_map, ih, List.map_insertIdx_of_fun]

theorem object.pickOrder_short {α : Type} (l : List α) (h : l.length ≤ 1) (seed : Nat) :
    pickOrder seed l = l := by
  match l, h with
  | [], _ => rfl
  | [a], _ => simp [pickOrder, Nat.mod_one]

theorem List.insertIdx_length_append {α : Type} (a : α) (t : List α) :
    ∀ s : List α, (s ++ t).insertIdx s.length a = s ++ a :: t
  | [] => by simp [List.insertIdx]
  | b :: s => by
    simp only [List.cons_append, List.length_cons, List.insertIdx_succ_cons,
      List.insertIdx_length_append a t s]

/-- Every order of the entries is picked by some order number: the schedule can express
whatever order the runtime chooses. -/
theorem object.pickOrder_reaches {α : Type} (l : List α) :
    ∀ l' : List α, l'.Perm l → ∃ seed, pickOrder seed l = l' := by
  induction l with
  | nil =>
    intro l' h
    exact ⟨0, by rw [h.eq_nil]; rfl⟩
  | cons a rest ih =>
    intro l' h
    obtain ⟨s, t, rfl⟩ := List.append_of_mem (h.symm.subset (List.mem_cons_self a rest))
    have hst : (s ++ t).Perm rest := (List.perm_middle.symm.trans h).cons_inv
    obtain ⟨seed, hseed⟩ := ih (s ++ t) hst
    have hlen : s.length < rest.length + 1 := by
      have := hst.length_eq
      rw [List.length_append] at this
      omega
    refine ⟨seed * (rest.length + 1) + s.length, ?_⟩
    have hdiv : (seed * (rest.length + 1) + s.length) / (rest.length + 1) = seed := by
      rw [Nat.mul_comm, Nat.mul_add_div (Nat.succ_pos _), Nat.div_eq_of_lt hlen, Nat.add_zero]
    have hmod : (seed * (rest.length + 1) + s.length) % (rest.length + 1) = s.length := by
      rw [Nat.mul_comm, Nat.mul_add_mod, Nat.mod_eq_of_lt hlen]
    rw [pickOrder, hdiv, hmod, hseed, List.insertIdx_length_append]

theorem object.elements_eq_map {P : Pkg} (X : Deps P) (es : List (Object P)) :
    Array.Inspect.elements X es = es.map (Object.Inspect X) := by
  induction es with
  | nil => rfl
  | cons e es ih => simp only [Array.Inspect.elements, List.map_cons, ih]

theorem object.pairs_eq_map {P : Pkg} (X : Deps P) (ps : List (HashKey × HashPair P)) :
    Hash.Inspect.pairs X ps = ps.map (fun kp => Hash.Inspect.pair X kp.2) := by
  induction ps with
  | nil => rfl
  | cons p ps ih => simp only [Hash.Inspect.pairs, List.map_cons, ih]

theorem object.runAll_forall₂ (rs : List Render) :
    ∀ σ, List.Forall₂ (fun r s => ∃ σr, s = (r σr).1) rs (runAll rs σ).1 := by
  induction rs with
  | nil => intro σ; exact List.Forall₂.nil
  | cons r rs ih =>
    intro σ
    simp only [runAll]
    exact List.Forall₂.cons ⟨σ, rfl⟩ (ih _)

theorem object.pair_text {P : Pkg} (X : Deps P) (p : HashPair P) (σ : Sched) :
    (Hash.Inspect.pair X p σ).1
      = (p.Key.Inspect X σ).1 ++ ": " ++ (p.Value.Inspect X (p.Key.Inspect X σ).2).1 := by
  cases p with
  | mk k v => rfl

theorem object.array_text {P : Pkg} (X : Deps P) (es : List (Object P)) (σ : Sched) :
    ((Object.Array es).Inspect X σ).1
      = "[" ++ strings.Join (runAll (Array.Inspect.elements X es) σ).1 ", " ++ "]" := by
  simp only [Object.Inspect]

theorem object.hash_text {P : Pkg} (X : Deps P) (ps : List (HashKey × HashPair P)) (σ : Sched) :
    ((Object.Hash ps).Inspect X σ).1
      = "\x7b" ++ strings.Join
          (runAll (pickOrder (σ.headD 0) (Hash.Inspect.pairs X ps)) σ.tail).1 ", " ++ "\x7d" := by
  simp only [Object.Inspect, rangeMap]

/-- C8: an Array renders as `[`, the renderings of its elements in element order joined
by `, `, and `]`; the empty Array renders as `[]`, and an Array of Arrays renders its
elements by the same rule. -/
theorem array_inspect_brackets_elements {P : Pkg} (X : Deps P) (σ : Sched) :
    (∀ es : List (Object P), ∃ strs : List String,
      List.Forall₂ (fun e s => ∃ σe, s = (e.Inspect X σe).1) es strs ∧
      ((Object.Array es).Inspect X σ).1 = "[" ++ ", ".intercalate strs ++ "]") ∧
    ((Object.Array ([] : List (Object P))).Inspect X σ).1 = "[]" ∧
    ((Object.Array [.Array [.Integer 1, .Integer 2], .Array [], .Boolean true]
        : Object P).Inspect X σ).1 = "[[1, 2], [], vrai]" := by
  refine ⟨?_, rfl, rfl⟩
  intro es
  refine ⟨(runAll (Array.Inspect.elements X es) σ).1, ?_, ?_⟩
  · have h := runAll_forall₂ (Array.Inspect.elements X es) σ
    rw [elements_eq_map, List.forall₂_map_left_iff] at h
    rw [elements_eq_map]
    exact h
  · rw [array_text, strings.Join_eq_intercalate]

/-- C9: a Hash renders as an opening brace, the renderings `key: value` of its stored
pairs, each pair once, in the order the runtime walks the map, joined by `, `, and a
closing brace; the empty Hash renders as two braces and the Hash with the single pair
(Integer 1, Integer 2) as `1: 2` between braces. -/
theorem hash_inspect_braces_pairs {P : Pkg} (X : Deps P) (σ : Sched) :
    (∀ ps : List (HashKey × HashPair P), ∃ (order : List (HashKey × HashPair P))
        (strs : List String),
      order.Perm ps ∧
      List.Forall₂ (fun kp s => ∃ σk σv,
        s = (kp.2.Key.Inspect X σk).1 ++ ": " ++ (kp.2.Value.Inspect X σv).1) order strs ∧
      ((Object.Hash ps).Inspect X σ).1 = "\x7b" ++ ", ".intercalate strs ++ "\x7d") ∧
    ((Object.Hash ([] : List (HashKey × HashPair P))).Inspect X σ).1 = "\x7b\x7d" ∧
    ((Object.Hash [({ Type_ := INTEGER_OBJ, Value := 1 }, .mk (.Integer 1) (.Integer 2))]
        : Object P).Inspect X σ).1 = "\x7b1: 2\x7d" := by
  refine ⟨?_, rfl, ?_⟩
  · intro ps
    refine ⟨pickOrder (σ.headD 0) ps,
      (runAll (pickOrder (σ.headD 0) (Hash.Inspect.pairs X ps)) σ.tail).1,
      pickOrder_perm ps _, ?_, ?_⟩
    · have h := runAll_forall₂ (pickOrder (σ.headD 0) (Hash.Inspect.pairs X ps)) σ.tail
      rw [pairs_eq_map, pickOrder_map, List.forall₂_map_left_iff] at h
      rw [pairs_eq_map, pickOrder_map]
      refine h.imp ?_
      rintro kp s ⟨σr, hs⟩
      exact ⟨σr, (kp.2.Key.Inspect X σr).2, by rw [hs, pair_text]⟩
    · rw [hash_text, strings.Join_eq_intercalate]
  · rw [hash_text, pickOrder_short _ (by simp [Hash.Inspect.pairs])]
    rfl

theorem object.runAll_cons_text (r : Render) (rs : List Render) (σ : Sched) :
    (runAll (r :: rs) σ).1 = (r σ).1 :: (runAll rs (r σ).2).1 := rfl

mutual
theorem object.Inspect_text_indep {P : Pkg} (X : Deps P) :
    ∀ v : Object P, v.smallHashes = true →
      ∀ σ₁ σ₂ : Sched, (v.Inspect X σ₁).1 = (v.Inspect X σ₂).1
  | .Integer _, _, _, _ => rfl
  | .Boolean _, _, _, _ => rfl
  | .Null, _, _, _ => rfl
  | .Error _, _, _, _ => rfl
  | .String _, _, _, _ => rfl
  | .Function _ _ _, _, _, _ => rfl
  | .Builtin _, _, _, _ => rfl
  | .ReturnValue v, h, σ₁, σ₂ => by
    have hv : v.smallHashes = true := by simpa [Object.smallHashes] using h
    simpa only [Object.Inspect] using object.Inspect_text_indep X v hv σ₁ σ₂
  | .Array es, h, σ₁, σ₂ => by
    have hes : smallHashes.elements es = true := by simpa [Object.smallHashes] using h
    rw [array_text, array_text, object.elements_text_indep X es hes σ₁ σ₂]
  | .Hash ps, h, σ₁, σ₂ => by
    have hps : ps.length ≤ 1 ∧ smallHashes.pairs ps = true := by
      simpa [Object.smallHashes] using h
    have hlen : (Hash.Inspect.pairs X ps).length ≤ 1 := by
      rw [pairs_eq_map, List.length_map]; exact hps.1
    rw [hash_text, hash_text, pickOrder_short _ hlen, pickOrder_short _ hlen,
      object.pairs_text_indep X ps hps.2 σ₁.tail σ₂.tail]
theorem object.elements_text_indep {P : Pkg} (X : Deps P) :
    ∀ es : List (Object P), smallHashes.elements es = true →
      ∀ σ₁ σ₂ : Sched, (runAll (Array.Inspect.elements X es) σ₁).1
        = (runAll (Array.Inspect.elements X es) σ₂).1
  | [], _, _, _ => rfl
  | e :: es, h, σ₁, σ₂ => by
    have he : e.smallHashes = true ∧ smallHashes.elements es = true := by
      simpa [smallHashes.elements] using h
    simp only [Array.Inspect.elements, runAll_cons_text]
    rw [object.Inspect_text_indep X e he.1 σ₁ σ₂,
      object.elements_text_indep X es he.2 (Object.Inspect X e σ₁).2 (Object.Inspect X e σ₂).2]
theorem object.pairs_text_indep {P : Pkg} (X : Deps P) :
    ∀ ps : List (HashKey × HashPair P), smallHashes.pairs ps = true →
      ∀ σ₁ σ₂ : Sched, (runAll (Hash.Inspect.pairs X ps) σ₁).1
        = (runAll (Hash.Inspect.pairs X ps) σ₂).1
  | [], _, _, _ => rfl
  | kp :: ps, h, σ₁, σ₂ => by
    have hp : smallHashes.pair kp.2 = true ∧ smallHashes.pairs ps = true := by
      simpa [smallHashes.pairs] using h
    simp only [Hash.Inspect.pairs, runAll_cons_text]
    rw [object.pair_text_indep X kp.2 hp.1 σ₁ σ₂,
      object.pairs_text_indep X ps hp.2 (Hash.Inspect.pair X kp.2 σ₁).2
        (Hash.Inspect.pair X kp.2 σ₂).2]
theorem object.pair_text_indep {P : Pkg} (X : Deps P) :
    ∀ p : HashPair P, smallHashes.pair p = true →
      ∀ σ₁ σ₂ : Sched, (Hash.Inspect.pair X p σ₁).1 = (Hash.Inspect.pair X p σ₂).1
  | .mk k v, h, σ₁, σ₂ => by
    have hkv : k.smallHashes = true ∧ v.smallHashes = true := by
      simpa [smallHashes.pair] using h
    rw [pair_text, pair_text]
    simp only [HashPair.Key, HashPair.Value]
    rw [object.Inspect_text_indep X k hkv.1 σ₁ σ₂,
      object.Inspect_text_indep X v hkv.2 (Object.Inspect X k σ₁).2 (Object.Inspect X k σ₂).2]
end

/-- C5, as stated, fails: the Hash holding the pairs `1: 2` and `3: 4` renders with the
pairs in one order when the runtime walks the map one way and in the other order when it
walks it the other way, so two calls of `Inspect` on one value need not agree. -/
theorem inspect_two_pairs_not_deterministic :
    (Object.twoPairs.Inspect Deps.example [0]).1 = "\x7b1: 2, 3: 4\x7d" ∧
    (Object.twoPairs.Inspect Deps.example [1]).1 = "\x7b3: 4, 1: 2\x7d" ∧
    ¬ (∀ (P : Pkg) (X : Deps P) (v : Object P) (σ₁ σ₂ : Sched),
        (v.Inspect X σ₁).1 = (v.Inspect X σ₂).1) := by
  refine ⟨by decide, by decide, ?_⟩
  intro h
  exact absurd (h Pkg.example Deps.example Object.twoPairs [0] [1]) (by decide)

/-- C5, amended: with the lookup service fixed, a value in which no Hash, at any depth,
holds two or more pairs renders to the same text at every call, whatever orders the
runtime picks. -/
theorem inspect_deterministic_without_multi_pair_hash {P : Pkg} (X : Deps P) (v : Object P)
    (h : v.smallHashes = true) (σ₁ σ₂ : Sched) :
    (v.Inspect X σ₁).1 = (v.Inspect X σ₂).1 :=
  object.Inspect_text_indep X v h σ₁ σ₂

/-- An Array holding a one-pair Hash and an Integer renders alike under two schedules. -/
theorem inspect_deterministic_without_multi_pair_hash_witness :
    ((Object.Array [.Hash [({ Type_ := INTEGER_OBJ, Value := 1 }, .mk (.Integer 1) (.String "dog"))],
        .Integer (-4)] : Object Pkg.example).Inspect Deps.example [5, 1]).1
      = ((Object.Array [.Hash [({ Type_ := INTEGER_OBJ, Value := 1 }, .mk (.Integer 1) (.String "dog"))],
        .Integer (-4)] : Object Pkg.example).Inspect Deps.example []).1 :=
  inspect_deterministic_without_multi_pair_hash Deps.example _ (by decide) [5, 1] []

/-- C10: Null renders as `nul`, Boolean as `vrai` or `faux`, an Error as `ERREUR : `
followed by its message unchanged, and an Integer holding an `int64` value as the decimal
rendering of the value, whatever the lookup service answers. -/
theorem keyword_renderings_are_fixed {P : Pkg} (X : Deps P) (σ : Sched) :
    ((Object.Null : Object P).Inspect X σ).1 = "nul" ∧
    ((Object.Boolean true : Object P).Inspect X σ).1 = "vrai" ∧
    ((Object.Boolean false : Object P).Inspect X σ).1 = "faux" ∧
    (∀ m : String, ((Object.Error m : Object P).Inspect X σ).1 = "ERREUR : " ++ m) ∧
    (∀ v : Int, IsInt64 v → ((Object.Integer v : Object P).Inspect X σ).1 = spec.decimal v) ∧
    ((Object.Integer (-9223372036854775808) : Object P).Inspect X σ).1
      = "-9223372036854775808" :=
  ⟨rfl, rfl, rfl, fun _ => rfl, fun v hv => fmt.Sprintf_d_eq_decimal v hv, rfl⟩

/-- The Integer -42 renders as `-42`. -/
theorem keyword_renderings_are_fixed_witness :
    IsInt64 (-42) ∧
    ((Object.Integer (-42) : Object Pkg.example).Inspect Deps.example []).1 = spec.decimal (-42) ∧
    ((Object.Integer (-42) : Object Pkg.example).Inspect Deps.example []).1 = "-42" :=
  ⟨by decide, (keyword_renderings_are_fixed Deps.example []).2.2.2.2.1 (-42) (by decide),
    by decide⟩

/-! ## The REPL -/

open repl

theorem repl.join_foldl (l : List String) : ∀ init : String,
    l.foldl (fun r s => r ++ s) init = init ++ String.join l := by
  induction l with
  | nil => intro init; simp [String.join]
  | cons a l ih =>
    intro init
    have h1 : String.join (a :: l) = a ++ String.join l := by
      show List.foldl (fun r s => r ++ s) ("" ++ a) l = a ++ String.join l
      rw [ih]; simp
    rw [List.foldl_cons, ih, h1, String.append_assoc]

theorem repl.text_append (a b : Writer) : Writer.text (a ++ b) = Writer.text a ++ Writer.text b := by
  unfold Writer.text
  rw [String.join, List.foldl_append, repl.join_foldl, ← String.join]

theorem repl.printParserErrors_eq (out : Writer) (errors : List String) :
    printParserErrors out errors
      = out ++ [DOG_FACE, "Oups ! Nous avons rencontré un problème avec Snout !\n",
          "Erreurs d'analyse :\n"] ++ errors.map (fun m => "\t" ++ m ++ "\n") := by
  have fold : ∀ (es : List String) (o : Writer),
      es.foldl (fun out msg => WriteString out ("\t" ++ msg ++ "\n")) o
        = o ++ es.map (fun m => "\t" ++ m ++ "\n") := by
    intro es
    induction es with
    | nil => intro o; simp
    | cons e es ih => intro o; rw [List.foldl_cons, ih]; simp [WriteString]
  simp only [printParserErrors, fold]
  simp [WriteString]

theorem repl.iteration_parse_failure {P : Pkg} (X : Deps P) (line : String) (st : State P)
    (hne : (X.parse line).2 ≠ []) :
    Start.iteration X line st
      = { st with out := printParserErrors (WriteString st.out PROMPT) (X.parse line).2 } := by
  rcases hp : X.parse line with ⟨program, errors⟩
  rw [hp] at hne
  have hlen : (errors.length != 0) = true := by
    simpa using hne
  simp only [Start.iteration, hp, hlen, if_true]

theorem repl.iteration_parse_ok {P : Pkg} (X : Deps P) (line : String) (st : State P)
    (hok : (X.parse line).2 = []) :
    Start.iteration X line st
      = match (X.Eval (X.parse line).1 st.env).1 with
        | none => { env := (X.Eval (X.parse line).1 st.env).2, σ := st.σ,
                    out := WriteString st.out PROMPT }
        | some v =>
          { env := (X.Eval (X.parse line).1 st.env).2, σ := (v.Inspect X st.σ).2,
            out := WriteString (WriteString
              (match v with
                | .Error _ => WriteString (WriteString st.out PROMPT) DOG_FACE
                | _ => WriteString st.out PROMPT) (v.Inspect X st.σ).1) "\n" } := by
  rcases hp : X.parse line with ⟨program, errors⟩
  rw [hp] at hok
  simp only at hok
  subst hok
  rcases he : X.Eval program st.env with ⟨evaluated, env⟩
  cases evaluated <;> simp [Start.iteration, hp, he]

/-- C6: for a line whose parser error list is not empty, the REPL writes after the prompt
the banner `DOG_FACE`, the two heading lines, and one line per error message in order,
each a tab, the message and a newline; the result does not depend on the evaluator, the
environment and the schedule are left as they were, and the loop goes on with the next
line. -/
theorem repl_parse_failure_prints_errors {P : Pkg} (X : Deps P) (line : String)
    (rest : List String) (st : State P) (errs : List String)
    (herrs : (X.parse line).2 = errs) (hne : errs ≠ []) :
    (Start.iteration X line st).out
      = st.out ++ [PROMPT] ++ [DOG_FACE, "Oups ! Nous avons rencontré un problème avec Snout !\n",
          "Erreurs d'analyse :\n"] ++ errs.map (fun m => "\t" ++ m ++ "\n") ∧
    Writer.text (Start.iteration X line st).out
      = Writer.text st.out ++ PROMPT ++ (DOG_FACE
          ++ "Oups ! Nous avons rencontré un problème avec Snout !\n" ++ "Erreurs d'analyse :\n"
          ++ String.join (errs.map (fun m => "\t" ++ m ++ "\n"))) ∧
    (Start.iteration X line st).env = st.env ∧
    (Start.iteration X line st).σ = st.σ ∧
    (∀ eval, Start.iteration { X with Eval := eval } line st = Start.iteration X line st) ∧
    Start.loop X (line :: rest) st = Start.loop X rest (Start.iteration X line st) := by
  subst herrs
  have hout : (Start.iteration X line st).out
      = st.out ++ [PROMPT] ++ [DOG_FACE, "Oups ! Nous avons rencontré un problème avec Snout !\n",
          "Erreurs d'analyse :\n"] ++ (X.parse line).2.map (fun m => "\t" ++ m ++ "\n") := by
    rw [iteration_parse_failure X line st hne, printParserErrors_eq]
    rfl
  refine ⟨hout, ?_, ?_, ?_, ?_, rfl⟩
  · rw [hout, text_append, text_append, text_append]
    simp [Writer.text, String.join, String.append_assoc]
  · rw [iteration_parse_failure X line st hne]
  · rw [iteration_parse_failure X line st hne]
  · intro eval
    rw [iteration_parse_failure X line st hne,
      iteration_parse_failure { X with Eval := eval } line st hne]

/-- The line `!x`, for which the example parser reports two errors. -/
theorem repl_parse_failure_prints_errors_witness :
    (Start.iteration Deps.example "!x" { env := (), σ := [], out := [] }).out
      = [] ++ [PROMPT] ++ [DOG_FACE, "Oups ! Nous avons rencontré un problème avec Snout !\n",
          "Erreurs d'analyse :\n"]
        ++ ["unexpected x", "no rule for !"].map (fun m => "\t" ++ m ++ "\n") :=
  (repl_parse_failure_prints_errors Deps.example "!x" [] { env := (), σ := [], out := [] }
    ["unexpected x", "no rule for !"] (by decide) (by decide)).1

/-- C7: for a line that parses with no error and evaluates to an object, the REPL writes
after the prompt the rendering of the object and a newline, with the banner `DOG_FACE`
first when the object is an Error and without it for any other variant, a ReturnValue
holding an Error included; when the evaluator returns nil nothing is written after the
prompt. -/
theorem repl_prints_rendering_banner_only_for_error {P : Pkg} (X : Deps P) (line : String)
    (st : State P) (hparse : (X.parse line).2 = []) :
    (∀ m env, X.Eval (X.parse line).1 st.env = (some (.Error m), env) →
      (Start.iteration X line st).out
        = st.out ++ [PROMPT] ++ [DOG_FACE, ((Object.Error m : Object P).Inspect X st.σ).1, "\n"]) ∧
    (∀ v env, X.Eval (X.parse line).1 st.env = (some v, env) → (∀ m, v ≠ .Error m) →
      (Start.iteration X line st).out = st.out ++ [PROMPT] ++ [(v.Inspect X st.σ).1, "\n"]) ∧
    (∀ m env, X.Eval (X.parse line).1 st.env = (some (.ReturnValue (.Error m)), env) →
      (Start.iteration X line st).out = st.out ++ [PROMPT] ++ ["ERREUR : " ++ m, "\n"]) ∧
    (∀ env, X.Eval (X.parse line).1 st.env = (none, env) →
      (Start.iteration X line st).out = st.out ++ [PROMPT]) := by
  have hother : ∀ v env, X.Eval (X.parse line).1 st.env = (some v, env) → (∀ m, v ≠ .Error m) →
      (Start.iteration X line st).out = st.out ++ [PROMPT] ++ [(v.Inspect X st.σ).1, "\n"] := by
    intro v env he hv
    rw [iteration_parse_ok X line st hparse, he]
    cases v <;> first | exact absurd rfl (hv _) | simp [WriteString]
  refine ⟨?_, hother, ?_, ?_⟩
  · intro m env he
    rw [iteration_parse_ok X line st hparse, he]
    simp [WriteString]
  · intro m env he
    exact hother _ env he (fun _ h => by cases h)
  · intro env he
    rw [iteration_parse_ok X line st hparse, he]
    simp [WriteString]

/-- The line `1 + 6`, which the example evaluator takes to the Integer 7. -/
theorem repl_prints_rendering_banner_only_for_error_witness :
    (Start.iteration Deps.example "1 + 6" { env := (), σ := [], out := [] }).out
      = [] ++ [PROMPT] ++ [((Object.Integer 7 : Object Pkg.example).Inspect Deps.example []).1, "\n"] :=
  (repl_prints_rendering_banner_only_for_error Deps.example "1 + 6"
    { env := (), σ := [], out := [] } (by decide)).2.1 (.Integer 7) () rfl
    (fun _ h => by cases h)
